import Mathlib

/-
Verification development for call.py, a single-file PDF-to-Excel OCR pipeline.

The source renders each PDF page, runs Tesseract OCR (Hindi) on it, splits the
recognized text of each page into lines, splits each stripped non-empty line
into cells at runs of two-or-more whitespace characters, collects one frame
(DataFrame) per page that produced at least one row, concatenates all frames
into a single merged table, writes it to a one-sheet Excel artifact and offers
it for download under a deterministic filename.

Strings are modelled as lists of characters.  The OCR engine itself is an
external capability, so a page is modelled by its outcome: the recognized text,
a TesseractNotFoundError, or any other exception.
-/

namespace Calling

/-- One table cell (a Python string). -/
abbrev Cell := List Char

/-- One table row: the cells obtained from one OCR text line. -/
abbrev TableRow := List Cell

/-- One per-page frame: models the pandas DataFrame built from one page's rows. -/
abbrev Frame := List TableRow

/-- Characters matched by Python's regex class backslash-s on str (and stripped
by str.strip): ASCII whitespace, the C1 separators, and Unicode space
characters. -/
def pyIsSpace (c : Char) : Bool :=
  [32, 9, 10, 11, 12, 13, 28, 29, 30, 31, 133, 160,
   0x1680, 0x2028, 0x2029, 0x202F, 0x205F, 0x3000].contains c.toNat
  || decide (0x2000 ≤ c.toNat ∧ c.toNat ≤ 0x200A)

/-- Whether a character list starts with a whitespace character. -/
def isSpaceHead : List Char → Bool
  | [] => false
  | c :: _ => pyIsSpace c

/-- Prepend a character to the first chunk of a chunk list (helper shared by
the line splitter and the newline splitter). -/
def consHead (c : Char) : List (List Char) → List (List Char)
  | [] => [[c]]
  | x :: xs => (c :: x) :: xs

/-- One step of removing trailing whitespace: drop the character if everything
after it was whitespace and it is whitespace itself. -/
def dropTrailingStep (c : Char) (r : List Char) : List Char :=
  if r.isEmpty && pyIsSpace c then [] else c :: r

/-- Remove all trailing whitespace characters. -/
def dropTrailing : List Char → List Char
  | [] => []
  | c :: rest => dropTrailingStep c (dropTrailing rest)

/-- Python str.strip(): remove leading and trailing whitespace. -/
def pyStrip (l : List Char) : List Char :=
  dropTrailing (l.dropWhile pyIsSpace)

/-- Worker for the embedding of re.split of the pattern backslash-s-brace-2-comma
(two or more whitespace characters).  In skip mode (first argument true) the
scanner is inside a matched whitespace run and discards whitespace; otherwise a
whitespace character followed by another whitespace character starts a run,
which ends the current cell, and any other character is added to the current
cell. -/
def splitRunsAux : Bool → List Char → List (List Char)
  | _, [] => [[]]
  | true, c :: rest =>
    if pyIsSpace c then splitRunsAux true rest
    else consHead c (splitRunsAux false rest)
  | false, c :: rest =>
    if pyIsSpace c && isSpaceHead rest then [] :: splitRunsAux true rest
    else consHead c (splitRunsAux false rest)

/-- re.split of the two-or-more-whitespace pattern, line 84 of call.py. -/
def splitRuns (l : List Char) : List (List Char) :=
  splitRunsAux false l

/-- The cell list produced from one raw OCR line:
re.split applied to line.strip()  (call.py line 84). -/
def splitLine (line : List Char) : List (List Char) :=
  splitRuns (pyStrip line)

/-- Python text.split applied with a newline separator (call.py line 81):
every newline separates, empty segments are kept. -/
def splitNewlines : List Char → List (List Char)
  | [] => [[]]
  | c :: rest =>
    if c == '\n' then [] :: splitNewlines rest
    else consHead c (splitNewlines rest)

/-- The page_data comprehension of call.py line 84: keep the lines that are
non-empty after stripping, and split each kept line into cells. -/
def structurePage (text : List Char) : Frame :=
  ((splitNewlines text).filter (fun line => !(pyStrip line).isEmpty)).map splitLine

/-- No two adjacent whitespace characters occur in the list. -/
def noRun : List Char → Bool
  | c1 :: c2 :: rest => (!(pyIsSpace c1 && pyIsSpace c2)) && noRun (c2 :: rest)
  | _ => true

/-- The list is non-empty and its last character is not whitespace. -/
def lastNotSpace : List Char → Bool
  | [] => false
  | [c] => !pyIsSpace c
  | _ :: c :: rest => lastNotSpace (c :: rest)

/-- The list starts with a run of two or more whitespace characters. -/
def startsRun : List Char → Bool
  | c1 :: c2 :: _ => pyIsSpace c1 && pyIsSpace c2
  | _ => false

/-- A well-formed cell for the splitting specification: non-empty, not starting
or ending in whitespace, and containing no two adjacent whitespace characters
(single spaces are allowed inside). -/
def okCell : List Char → Bool
  | [] => false
  | c :: rest => (!pyIsSpace c) && lastNotSpace (c :: rest) && noRun (c :: rest)

/-- A well-formed column separator: a run of at least two whitespace characters. -/
def okSep (s : List Char) : Bool :=
  decide (2 ≤ s.length) && s.all pyIsSpace

/-- Join cells with one separator between consecutive cells. -/
def interleave : List (List Char) → List (List Char) → List Char
  | [], _ => []
  | c :: _, [] => c
  | c :: cells, sep :: seps => c ++ sep ++ interleave cells seps

/-- Prepend characters to the first chunk of a chunk list. -/
def prependFirst (cell : List Char) : List (List Char) → List (List Char)
  | [] => [cell]
  | x :: xs => (cell ++ x) :: xs

/-- Outcome of processing one page inside the OCR loop of call.py lines 69-91:
the recognized text, a TesseractNotFoundError raised by pytesseract, or any
other exception raised while rendering or recognizing the page. -/
inductive PageOutcome where
  | ok (text : List Char)
  | notFound
  | err
deriving DecidableEq

/-- How one page's frame is merged with the frames of the later pages: a frame
is appended only when the page produced at least one row, and a failure of any
later page discards everything (the exception propagates out of the loop). -/
def combineFrames (pd : Frame) : Option (List Frame) → Option (List Frame)
  | some blocks => some (if pd.isEmpty then blocks else pd :: blocks)
  | none => none

/-- The page-number warnings emitted by call.py line 91: a page with no
structured text adds the warning naming page i+1. -/
def combineWarns (i : Nat) (pd : Frame) (w : List Nat) : List Nat :=
  if pd.isEmpty then (i + 1) :: w else w

/-- The OCR loop of call.py lines 69-102 from page index i on.  Returns the
collected frames (None when any page raises, matching the two except branches
that both return None) together with the list of page numbers that were warned
about before the run ended. -/
def runPages : Nat → List PageOutcome → Option (List Frame) × List Nat
  | _, [] => (some [], [])
  | i, .ok t :: rest =>
    (combineFrames (structurePage t) (runPages (i + 1) rest).1,
     combineWarns i (structurePage t) (runPages (i + 1) rest).2)
  | _, .notFound :: _ => (none, [])
  | _, .err :: _ => (none, [])

/-- call.py extract_text_with_ocr: run the loop from page 0. -/
def extract_text_with_ocr (pages : List PageOutcome) : Option (List Frame) × List Nat :=
  runPages 0 pages

/-- The warnings produced by a run in which every page recognizes successfully,
starting at page index i. -/
def warnsFrom (i : Nat) : List (List Char) → List Nat
  | [] => []
  | t :: rest =>
    if (structurePage t).isEmpty then (i + 1) :: warnsFrom (i + 1) rest
    else warnsFrom (i + 1) rest

/-- One worksheet of the logical Excel artifact: its name, the header row of
column labels that to_excel writes above the data (header defaults to True in
call.py line 48), and the data rows below it. -/
structure Sheet where
  sheetName : List Char
  headerLabels : List Nat
  rows : List TableRow
deriving DecidableEq

/-- The logical Excel artifact: its worksheets.  The binary encoding is out of
scope; only the logical export contract is modelled. -/
structure ExcelArtifact where
  sheets : List Sheet
deriving DecidableEq

/-- pd.concat of the per-page frames with ignore_index=True (call.py lines 40
and 128): the rows of all frames in order. -/
def concatFrames : List Frame → List TableRow
  | [] => []
  | f :: fs => f ++ concatFrames fs

/-- The number of columns of the concatenated DataFrame: each frame is built
with columns=None (call.py line 88), so its columns are the RangeIndex
0..w-1 with w its widest row, and pd.concat takes the union of those ranges,
i.e. the range up to the widest row overall. -/
def maxRowLen : List TableRow → Nat
  | [] => 0
  | r :: rs => max r.length (maxRowLen rs)

/-- call.py convert_dfs_to_excel_bytes: None for an empty frame list, otherwise
a single worksheet named Merged_OCR_Result.  to_excel is called with
index=False but header left at its default True (line 48), so pandas writes
the concatenated frame's integer column labels 0..w-1 as a header row above
the data, followed by the data rows unchanged (no data row is consumed as a
header; the frames carry no declared column schema, lines 36-50 and 88). -/
def convert_dfs_to_excel_bytes (dataframes : List Frame) : Option ExcelArtifact :=
  if dataframes.isEmpty then none
  else some ⟨[⟨"Merged_OCR_Result".toList,
    List.range (maxRowLen (concatFrames dataframes)), concatFrames dataframes⟩]⟩

/-- Index of the last occurrence of a character, -1 when absent (Python rfind). -/
def rfindIdx (ch : Char) : List Char → Int
  | [] => -1
  | c :: rest =>
    if 0 ≤ rfindIdx ch rest then rfindIdx ch rest + 1
    else if c == ch then 0 else -1

/-- Python os.path.splitext for posix paths: split at the last dot after the
last slash, unless every character between them is a dot (leading dots of the
basename do not start an extension). -/
def pySplitext (p : List Char) : List Char × List Char :=
  if rfindIdx '/' p < rfindIdx '.' p then
    if ((p.drop (rfindIdx '/' p + 1).toNat).take
          (rfindIdx '.' p - rfindIdx '/' p - 1).toNat).any (fun c => !(c == '.')) then
      (p.take (rfindIdx '.' p).toNat, p.drop (rfindIdx '.' p).toNat)
    else (p, [])
  else (p, [])

/-- The suggested download filename of call.py lines 137-141:
the uploaded file's base name followed by the engine tag and extension. -/
def exportFilename (uploadName : List Char) : List Char :=
  (pySplitext uploadName).1 ++ "_Tesseract_OCR.xlsx".toList

/-- The observable outcome of the app block of call.py lines 113-149:
a download button with a filename and an artifact, a success message without a
download (excel_bytes falsy), or the no-structured-text warning path (also taken
when extraction returned None). -/
inductive AppOutcome where
  | download (fname : List Char) (art : ExcelArtifact)
  | processedNoFile
  | noData
deriving DecidableEq

/-- call.py lines 123-146: extract, test the result for truthiness and for all
frames being empty, concatenate, convert, and offer the download. -/
def appRun (uploadName : List Char) (pages : List PageOutcome) : AppOutcome :=
  match (extract_text_with_ocr pages).1 with
  | none => .noData
  | some dfs =>
    if !dfs.isEmpty && !(dfs.all fun f => f.isEmpty) then
      match convert_dfs_to_excel_bytes dfs with
      | some art => .download (exportFilename uploadName) art
      | none => .processedNoFile
    else .noData

/-- State of the temporary PDF file of call.py lines 119-121: whether the file
exists on disk and whether the pdf_path variable was assigned. -/
structure TempState where
  tempOnDisk : Bool
  pathSet : Bool
deriving DecidableEq

/-- The finally block of call.py lines 151-153: unlink the temp file when
pdf_path is set and the file exists. -/
def finallyCleanup (s : TempState) : TempState :=
  if s.pathSet && s.tempOnDisk then ⟨false, s.pathSet⟩ else s

/-- The try/finally of call.py lines 113-153.  The temp file is created first
(tempOnDisk true); when writing the upload succeeds, pdf_path is assigned and
the body runs to an outcome (all exceptions of the body are handled by the
inner handlers or the except at line 148); the finally block then runs on every
path.  When the write itself raises, pdf_path was never assigned. -/
def appWithTemp (uploadName : List Char) (writeOk : Bool) (pages : List PageOutcome) :
    TempState × Option AppOutcome :=
  if writeOk then
    (finallyCleanup ⟨true, true⟩, some (appRun uploadName pages))
  else
    (finallyCleanup ⟨true, false⟩, none)

/-- consHead never produces the empty chunk list. -/
lemma consHead_ne_nil (c : Char) (xs : List (List Char)) : consHead c xs ≠ [] := by
  cases xs <;> simp [consHead]

/-- The splitter always produces at least one cell. -/
lemma splitRunsAux_ne_nil : ∀ (b : Bool) (l : List Char), splitRunsAux b l ≠ [] := by
  intro b l
  induction l generalizing b with
  | nil => cases b <;> simp [splitRunsAux]
  | cons c rest ih =>
    cases b with
    | true =>
      by_cases h : pyIsSpace c
      · simpa [splitRunsAux, h] using ih true
      · simpa [splitRunsAux, h] using consHead_ne_nil c (splitRunsAux false rest)
    | false =>
      by_cases h : pyIsSpace c && isSpaceHead rest
      · simp [splitRunsAux, h]
      · simpa [splitRunsAux, h] using consHead_ne_nil c (splitRunsAux false rest)

/-- The splitter always produces at least one cell. -/
lemma splitRuns_ne_nil (l : List Char) : splitRuns l ≠ [] :=
  splitRunsAux_ne_nil false l

/-- Skip mode discards the remaining whitespace of the separator run and
resumes: it equals splitting the remainder with the run dropped. -/
lemma splitRunsAux_true_eq (l : List Char) :
    splitRunsAux true l = splitRuns (l.dropWhile pyIsSpace) := by
  induction l with
  | nil => rfl
  | cons c rest ih =>
    by_cases h : pyIsSpace c
    · simpa [splitRunsAux, h, List.dropWhile_cons] using ih
    · simp [splitRunsAux, h, List.dropWhile_cons, splitRuns]

/-- Unfolding equation for splitRuns on a cons: a whitespace character followed
by another whitespace character closes the current cell and discards the whole
whitespace run; any other character is prepended to the first cell. -/
lemma splitRuns_cons (c : Char) (rest : List Char) :
    splitRuns (c :: rest) =
      if pyIsSpace c && isSpaceHead rest then [] :: splitRuns (rest.dropWhile pyIsSpace)
      else consHead c (splitRuns rest) := by
  by_cases h : pyIsSpace c && isSpaceHead rest
  · simp [splitRuns, splitRunsAux, h, splitRunsAux_true_eq]
  · simp [splitRuns, splitRunsAux, h]

/-- Prepending a character after prepending a chunk is prepending the bigger
chunk. -/
lemma consHead_prependFirst (c : Char) (cell : List Char) (xs : List (List Char)) :
    consHead c (prependFirst cell xs) = prependFirst (c :: cell) xs := by
  cases xs <;> simp [consHead, prependFirst]

/-- noRun restricts to the tail. -/
lemma noRun_tail (c : Char) (rest : List Char) (h : noRun (c :: rest) = true) :
    noRun rest = true := by
  cases rest with
  | nil => rfl
  | cons d ds => simpa [noRun, Bool.and_eq_true] using And.right (by simpa [noRun, Bool.and_eq_true] using h)

/-- lastNotSpace ignores a cons onto a non-empty list. -/
lemma lastNotSpace_cons (a : Char) (l : List Char) (h : l ≠ []) :
    lastNotSpace (a :: l) = lastNotSpace l := by
  cases l with
  | nil => exact absurd rfl h
  | cons b bs => rfl

/-- lastNotSpace only looks at the non-empty right part of an append. -/
lemma lastNotSpace_append (u v : List Char) (hv : v ≠ []) :
    lastNotSpace (u ++ v) = lastNotSpace v := by
  induction u with
  | nil => rfl
  | cons a u' ih =>
    have h1 : u' ++ v ≠ [] := by
      intro hh
      rw [List.append_eq_nil] at hh
      exact hv hh.2
    rw [List.cons_append, lastNotSpace_cons a (u' ++ v) h1, ih]

/-- A well-formed cell is non-empty. -/
lemma okCell_ne_nil {x : List Char} (h : okCell x = true) : x ≠ [] := by
  cases x with
  | nil => simp [okCell] at h
  | cons c rest => simp

/-- A well-formed cell does not start with whitespace. -/
lemma okCell_head {x : List Char} (h : okCell x = true) : isSpaceHead x = false := by
  cases x with
  | nil => simp [okCell] at h
  | cons c rest =>
    simp only [okCell, Bool.and_eq_true, Bool.not_eq_true'] at h
    simpa [isSpaceHead] using h.1.1

/-- A well-formed cell does not end with whitespace. -/
lemma okCell_last {x : List Char} (h : okCell x = true) : lastNotSpace x = true := by
  cases x with
  | nil => simp [okCell] at h
  | cons c rest =>
    simp only [okCell, Bool.and_eq_true] at h
    exact h.1.2

/-- A well-formed cell contains no run of two adjacent whitespace characters. -/
lemma okCell_noRun {x : List Char} (h : okCell x = true) : noRun x = true := by
  cases x with
  | nil => simp [okCell] at h
  | cons c rest =>
    simp only [okCell, Bool.and_eq_true] at h
    exact h.2

/-- Splitting a run-free chunk followed by anything (with a safe junction:
the chunk may not end in whitespace while the remainder starts with one)
prepends the chunk to the first cell of the split of the remainder.  This is
the formal content of a single space never acting as a separator. -/
lemma splitRuns_append_cell :
    ∀ (cell tail : List Char), noRun cell = true →
    (cell = [] ∨ isSpaceHead tail = false ∨ lastNotSpace cell = true) →
    splitRuns (cell ++ tail) = prependFirst cell (splitRuns tail) := by
  intro cell
  induction cell with
  | nil =>
    intro tail _ _
    cases h : splitRuns tail with
    | nil => exact absurd h (splitRuns_ne_nil tail)
    | cons x xs => rw [List.nil_append, h]; simp [prependFirst]
  | cons c cell' ih =>
    intro tail hnr hj
    have hcond : (pyIsSpace c && isSpaceHead (cell' ++ tail)) = false := by
      by_cases hc : pyIsSpace c
      · cases cell' with
        | cons c2 rest =>
          have hsplit : (pyIsSpace c = false ∨ pyIsSpace c2 = false) ∧ noRun (c2 :: rest) = true := by
            simpa [noRun] using hnr
          have h2 : pyIsSpace c2 = false := by
            rcases hsplit.1 with h | h
            · exact absurd hc (by simp [h])
            · exact h
          simp [isSpaceHead, h2]
        | nil =>
          have ht : isSpaceHead tail = false := by
            rcases hj with h | h | h
            · simp at h
            · exact h
            · simp [lastNotSpace, hc] at h
          simp [ht]
      · simp [hc]
    have hj' : cell' = [] ∨ isSpaceHead tail = false ∨ lastNotSpace cell' = true := by
      cases cell' with
      | nil => exact Or.inl rfl
      | cons c2 rest =>
        rcases hj with h | h | h
        · simp at h
        · exact Or.inr (Or.inl h)
        · exact Or.inr (Or.inr (by rwa [lastNotSpace_cons c (c2 :: rest) (by simp)] at h))
    rw [List.cons_append, splitRuns_cons, hcond]
    simp only [Bool.false_eq_true, if_false]
    rw [ih tail (noRun_tail c cell' hnr) hj', consHead_prependFirst]

/-- Dropping whitespace from an all-whitespace prefix glued to a remainder that
does not start with whitespace yields the remainder. -/
lemma dropWhile_spaces_append :
    ∀ (pre tail : List Char), (∀ c ∈ pre, pyIsSpace c = true) → isSpaceHead tail = false →
    (pre ++ tail).dropWhile pyIsSpace = tail := by
  intro pre
  induction pre with
  | nil =>
    intro tail _ ht
    cases tail with
    | nil => rfl
    | cons t ts =>
      have : pyIsSpace t = false := by simpa [isSpaceHead] using ht
      simp [List.dropWhile_cons, this]
  | cons a pre' ih =>
    intro tail hp ht
    have ha : pyIsSpace a = true := hp a (by simp)
    rw [List.cons_append, List.dropWhile_cons, if_pos ha]
    exact ih tail (fun c hc => hp c (by simp [hc])) ht

/-- Splitting a separator run glued to a remainder that does not start with
whitespace produces an empty first cell and the split of the remainder. -/
lemma splitRuns_sep_append (sep tail : List Char) (hs : okSep sep = true)
    (ht : isSpaceHead tail = false) :
    splitRuns (sep ++ tail) = [] :: splitRuns tail := by
  have hall : ∀ c ∈ sep, pyIsSpace c = true := by
    have := (by simpa [okSep, Bool.and_eq_true] using hs :
      (2 ≤ sep.length) ∧ sep.all pyIsSpace = true).2
    simpa [List.all_eq_true] using this
  have hlen : 2 ≤ sep.length :=
    (by simpa [okSep, Bool.and_eq_true] using hs : (2 ≤ sep.length) ∧ sep.all pyIsSpace = true).1
  match sep, hlen with
  | s1 :: s2 :: sep', _ =>
    have h1 : pyIsSpace s1 = true := hall s1 (by simp)
    have h2 : pyIsSpace s2 = true := hall s2 (by simp)
    rw [List.cons_append, splitRuns_cons]
    have hcond : (pyIsSpace s1 && isSpaceHead ((s2 :: sep') ++ tail)) = true := by
      simp [isSpaceHead, h1, h2]
    rw [hcond]
    simp only [if_true]
    rw [List.cons_append, List.dropWhile_cons, if_pos h2,
      dropWhile_spaces_append sep' tail (fun c hc => hall c (by simp [hc])) ht]

/-- The join of a well-formed cell list does not start with whitespace. -/
lemma isSpaceHead_interleave (c : List Char) (cs seps : List (List Char))
    (h : okCell c = true) : isSpaceHead (interleave (c :: cs) seps) = false := by
  have hne : c ≠ [] := okCell_ne_nil h
  have hh : isSpaceHead c = false := okCell_head h
  match c, hne with
  | ch :: c', _ =>
    cases seps with
    | nil => simpa [interleave] using hh
    | cons s ss =>
      simpa [interleave, isSpaceHead] using (by simpa [isSpaceHead] using hh : pyIsSpace ch = false)

/-- The join of a non-empty cell list is non-empty. -/
lemma interleave_ne_nil (c : List Char) (cs seps : List (List Char)) (hc : c ≠ []) :
    interleave (c :: cs) seps ≠ [] := by
  cases seps with
  | nil => simpa [interleave] using hc
  | cons s ss =>
    simp only [interleave]
    intro hh
    rw [List.append_assoc, List.append_eq_nil] at hh
    exact hc hh.1

/-- The join of well-formed cells with separators does not end in whitespace. -/
lemma lastNotSpace_interleave :
    ∀ (seps cells : List (List Char)), seps.length + 1 = cells.length →
    (∀ x ∈ cells, okCell x = true) →
    lastNotSpace (interleave cells seps) = true := by
  intro seps
  induction seps with
  | nil =>
    intro cells hlen hc
    match cells, hlen with
    | [c], _ => exact okCell_last (hc c (by simp))
  | cons s seps' ih =>
    intro cells hlen hc
    match cells, hlen with
    | c :: c' :: cs', hlen =>
      have hlen' : seps'.length + 1 = (c' :: cs').length := by
        simpa using hlen
      have hx : interleave (c' :: cs') seps' ≠ [] :=
        interleave_ne_nil c' cs' seps' (okCell_ne_nil (hc c' (by simp)))
      have hsx : s ++ interleave (c' :: cs') seps' ≠ [] := by
        intro hh
        rw [List.append_eq_nil] at hh
        exact hx hh.2
      rw [interleave, List.append_assoc, lastNotSpace_append _ _ hsx,
        lastNotSpace_append _ _ hx]
      exact ih (c' :: cs') hlen' (fun x hx' => hc x (by simp [hx']))

/-- Core splitting theorem: splitting the join of well-formed cells with
two-or-more-whitespace separators recovers exactly the cells. -/
lemma splitRuns_interleave :
    ∀ (seps cells : List (List Char)), seps.length + 1 = cells.length →
    (∀ x ∈ cells, okCell x = true) → (∀ s ∈ seps, okSep s = true) →
    splitRuns (interleave cells seps) = cells := by
  intro seps
  induction seps with
  | nil =>
    intro cells hlen hc _
    match cells, hlen with
    | [c], _ =>
      have h1 : okCell c = true := hc c (by simp)
      have h2 := splitRuns_append_cell c [] (okCell_noRun h1) (Or.inr (Or.inl rfl))
      rw [List.append_nil] at h2
      rw [show interleave [c] [] = c from rfl, h2]
      simp [prependFirst, splitRuns, splitRunsAux]
  | cons s seps' ih =>
    intro cells hlen hc hs
    match cells, hlen with
    | c :: c' :: cs', hlen =>
      have hlen' : seps'.length + 1 = (c' :: cs').length := by simpa using hlen
      have hcell : okCell c = true := hc c (by simp)
      have hhead : isSpaceHead (interleave (c' :: cs') seps') = false :=
        isSpaceHead_interleave c' cs' seps' (hc c' (by simp))
      rw [interleave, List.append_assoc,
        splitRuns_append_cell c _ (okCell_noRun hcell) (Or.inr (Or.inr (okCell_last hcell))),
        splitRuns_sep_append s _ (hs s (by simp)) hhead,
        ih (c' :: cs') hlen' (fun x hx => hc x (by simp [hx])) (fun x hx => hs x (by simp [hx]))]
      simp [prependFirst]

/-- Removing trailing whitespace from a list that does not end in whitespace
changes nothing. -/
lemma dropTrailing_eq_self : ∀ (l : List Char), lastNotSpace l = true → dropTrailing l = l := by
  intro l
  induction l with
  | nil => intro h; simp [lastNotSpace] at h
  | cons c rest ih =>
    intro h
    cases rest with
    | nil =>
      have hc : pyIsSpace c = false := by simpa [lastNotSpace] using h
      simp [dropTrailing, dropTrailingStep, hc]
    | cons d ds =>
      have h' : lastNotSpace (d :: ds) = true := by simpa [lastNotSpace] using h
      have hr := ih h'
      show dropTrailingStep c (dropTrailing (d :: ds)) = c :: d :: ds
      rw [hr]
      simp [dropTrailingStep]

/-- Stripping a list that neither starts nor ends in whitespace changes nothing. -/
lemma pyStrip_eq_self (l : List Char) (h1 : isSpaceHead l = false)
    (h2 : l = [] ∨ lastNotSpace l = true) : pyStrip l = l := by
  have hd : l.dropWhile pyIsSpace = l := by
    cases l with
    | nil => rfl
    | cons c cs =>
      have : pyIsSpace c = false := by simpa [isSpaceHead] using h1
      simp [List.dropWhile_cons, this]
  rw [pyStrip, hd]
  rcases h2 with h | h
  · subst h; rfl
  · exact dropTrailing_eq_self l h

/-- A non-empty result of removing trailing whitespace does not end in
whitespace. -/
lemma dropTrailing_lastNotSpace : ∀ (l : List Char), dropTrailing l ≠ [] →
    lastNotSpace (dropTrailing l) = true := by
  intro l
  induction l with
  | nil => intro h; simp [dropTrailing] at h
  | cons c rest ih =>
    intro h
    cases hrr : dropTrailing rest with
    | nil =>
      by_cases hc : pyIsSpace c
      · exact absurd (by simp [dropTrailing, dropTrailingStep, hrr, hc]) h
      · simp [dropTrailing, dropTrailingStep, hrr, hc, lastNotSpace]
    | cons x xs =>
      have h1 : dropTrailing (c :: rest) = c :: x :: xs := by
        simp [dropTrailing, dropTrailingStep, hrr]
      rw [h1, lastNotSpace_cons c (x :: xs) (by simp), ← hrr]
      exact ih (by simp [hrr])

/-- The head of a non-trivial dropWhile result falsifies the predicate. -/
lemma dropWhile_head_false :
    ∀ (l : List Char) (c : Char) (rest : List Char),
    l.dropWhile pyIsSpace = c :: rest → pyIsSpace c = false := by
  intro l
  induction l with
  | nil => intro c rest h; simp at h
  | cons a tl ih =>
    intro c rest h
    by_cases ha : pyIsSpace a
    · rw [List.dropWhile_cons, if_pos ha] at h
      exact ih c rest h
    · rw [List.dropWhile_cons, if_neg ha] at h
      cases h
      simpa using ha

/-- Removing trailing whitespace keeps the head character. -/
lemma dropTrailing_head (l : List Char) (c : Char) (rest : List Char)
    (h : dropTrailing l = c :: rest) : ∃ t, l = c :: t := by
  cases l with
  | nil => simp [dropTrailing] at h
  | cons a tl =>
    refine ⟨tl, ?_⟩
    by_cases hc : (dropTrailing tl).isEmpty && pyIsSpace a
    · rw [show dropTrailing (a :: tl) = [] by simp [dropTrailing, dropTrailingStep, hc]] at h
      cases h
    · rw [show dropTrailing (a :: tl) = a :: dropTrailing tl by
        simp only [dropTrailing, dropTrailingStep]; rw [if_neg hc]] at h
      cases h
      rfl

/-- A non-empty stripped line does not start with whitespace. -/
lemma pyStrip_head_not_space (l : List Char) (h : pyStrip l ≠ []) :
    isSpaceHead (pyStrip l) = false := by
  rw [pyStrip] at h ⊢
  cases hps : dropTrailing (l.dropWhile pyIsSpace) with
  | nil => exact absurd hps h
  | cons c rest =>
    obtain ⟨t, ht⟩ := dropTrailing_head _ c rest hps
    have := dropWhile_head_false l c t ht
    simp [isSpaceHead, this]

/-- A non-empty stripped line does not end in whitespace. -/
lemma pyStrip_lastNotSpace (l : List Char) (h : pyStrip l ≠ []) :
    lastNotSpace (pyStrip l) = true := by
  rw [pyStrip] at h ⊢
  exact dropTrailing_lastNotSpace _ h

/-- An all-whitespace non-empty list ends in whitespace. -/
lemma lastNotSpace_all_space : ∀ (l : List Char), l ≠ [] →
    (∀ c ∈ l, pyIsSpace c = true) → lastNotSpace l = false := by
  intro l
  induction l with
  | nil => intro h _; exact absurd rfl h
  | cons c rest ih =>
    intro _ hall
    cases rest with
    | nil => simp [lastNotSpace, hall c (by simp)]
    | cons d ds =>
      rw [lastNotSpace_cons c (d :: ds) (by simp)]
      exact ih (by simp) (fun x hx => hall x (by simp [hx]))

/-- dropWhile does not change the last character when its result is non-empty. -/
lemma lastNotSpace_dropWhile : ∀ (l : List Char), l.dropWhile pyIsSpace ≠ [] →
    lastNotSpace (l.dropWhile pyIsSpace) = lastNotSpace l := by
  intro l
  induction l with
  | nil => intro h; simp at h
  | cons a tl ih =>
    intro h
    by_cases ha : pyIsSpace a
    · rw [List.dropWhile_cons, if_pos ha] at h ⊢
      have htl : tl ≠ [] := by
        intro hh
        rw [hh] at h
        simp at h
      rw [ih h, lastNotSpace_cons a tl htl]
    · rw [List.dropWhile_cons, if_neg ha]

/-- dropWhile never lengthens a list. -/
lemma dropWhile_length_le : ∀ (l : List Char), (l.dropWhile pyIsSpace).length ≤ l.length := by
  intro l
  induction l with
  | nil => simp
  | cons b bs ihb =>
    rw [List.dropWhile_cons]
    split
    · exact le_trans ihb (by simp)
    · simp

/-- Shape of a split: the first cell can only be empty when the input is empty
or starts with a separator run, and no later cell is ever empty when the input
does not end in whitespace. -/
lemma splitRuns_shape : ∀ (n : Nat) (l : List Char), l.length ≤ n →
    (l = [] ∨ lastNotSpace l = true) →
    ∃ c₀ cs, splitRuns l = c₀ :: cs ∧ (∀ cell ∈ cs, cell ≠ []) ∧
      (c₀ = [] → l = [] ∨ startsRun l = true) := by
  intro n
  induction n with
  | zero =>
    intro l hl _
    have hnil : l = [] := by cases l <;> simp_all
    subst hnil
    exact ⟨[], [], rfl, by simp, fun _ => Or.inl rfl⟩
  | succ n ih =>
    intro l hl hlast
    cases l with
    | nil => exact ⟨[], [], rfl, by simp, fun _ => Or.inl rfl⟩
    | cons c rest =>
      have hlast' : lastNotSpace (c :: rest) = true := by
        rcases hlast with h | h
        · cases h
        · exact h
      by_cases hrun : (pyIsSpace c && isSpaceHead rest) = true
      · have hc : pyIsSpace c = true := by
          rcases Bool.and_eq_true_iff.1 hrun with ⟨h1, _⟩; exact h1
        have hsh : isSpaceHead rest = true := by
          rcases Bool.and_eq_true_iff.1 hrun with ⟨_, h2⟩; exact h2
        have hrest_ne : rest ≠ [] := by
          intro hh
          rw [hh] at hsh
          simp [isSpaceHead] at hsh
        cases hre : rest.dropWhile pyIsSpace with
        | nil =>
          exfalso
          have hallrest : ∀ x ∈ rest, pyIsSpace x = true := List.dropWhile_eq_nil_iff.1 hre
          have hall : ∀ x ∈ c :: rest, pyIsSpace x = true := by
            intro x hx
            rcases List.mem_cons.1 hx with rfl | hx'
            · exact hc
            · exact hallrest x hx'
          rw [lastNotSpace_all_space (c :: rest) (by simp) hall] at hlast'
          cases hlast'
        | cons c' rest'' =>
          have hlen' : (rest.dropWhile pyIsSpace).length ≤ n :=
            le_trans (dropWhile_length_le rest) (by simpa using hl)
          have hlast'' : lastNotSpace (rest.dropWhile pyIsSpace) = true := by
            rw [lastNotSpace_dropWhile rest (by simp [hre]),
              ← lastNotSpace_cons c rest hrest_ne]
            exact hlast'
          obtain ⟨c₀, cs, heq, hcs, hc₀⟩ := ih (rest.dropWhile pyIsSpace) hlen' (Or.inr hlast'')
          have hc₀ne : c₀ ≠ [] := by
            intro hh
            rcases hc₀ hh with h1 | h1
            · rw [h1] at hre; simp at hre
            · rw [hre] at h1
              have hch : pyIsSpace c' = false := dropWhile_head_false rest c' rest'' hre
              cases rest'' with
              | nil => simp [startsRun] at h1
              | cons b bs =>
                rcases Bool.and_eq_true_iff.1 (by simpa [startsRun] using h1) with ⟨hx, _⟩
                rw [hch] at hx
                cases hx
          refine ⟨[], c₀ :: cs, ?_, ?_, ?_⟩
          · rw [splitRuns_cons, if_pos hrun, heq]
          · intro cell hcell
            rcases List.mem_cons.1 hcell with rfl | hm
            · exact hc₀ne
            · exact hcs cell hm
          · intro _
            refine Or.inr ?_
            cases rest with
            | nil => exact absurd rfl hrest_ne
            | cons d ds =>
              have hd : pyIsSpace d = true := by simpa [isSpaceHead] using hsh
              simp [startsRun, hc, hd]
      · have hlast'' : rest = [] ∨ lastNotSpace rest = true := by
          cases rest with
          | nil => exact Or.inl rfl
          | cons d ds =>
            exact Or.inr (by rw [← lastNotSpace_cons c (d :: ds) (by simp)]; exact hlast')
        obtain ⟨c₀, cs, heq, hcs, _⟩ := ih rest (by simpa using hl) hlast''
        refine ⟨c :: c₀, cs, ?_, hcs, by simp⟩
        rw [splitRuns_cons, if_neg (by simp [hrun]), heq]
        rfl

/-- Every cell of a line that is non-empty after stripping is a non-empty
string: stripping removes boundary whitespace and separator runs are maximal. -/
lemma splitLine_cells_ne_nil (line : List Char) (h : pyStrip line ≠ []) :
    ∀ cell ∈ splitLine line, cell ≠ [] := by
  obtain ⟨c₀, cs, heq, hcs, hc₀⟩ :=
    splitRuns_shape (pyStrip line).length (pyStrip line) le_rfl
      (Or.inr (pyStrip_lastNotSpace line h))
  have hc₀ne : c₀ ≠ [] := by
    intro hh
    rcases hc₀ hh with h1 | h1
    · exact h h1
    · have hhd := pyStrip_head_not_space line h
      cases hps : pyStrip line with
      | nil => exact h hps
      | cons a tl =>
        rw [hps] at h1 hhd
        cases tl with
        | nil => simp [startsRun] at h1
        | cons b tl2 =>
          rcases Bool.and_eq_true_iff.1 (by simpa [startsRun] using h1) with ⟨hx, _⟩
          rw [show pyIsSpace a = false by simpa [isSpaceHead] using hhd] at hx
          cases hx
  intro cell hcell
  rw [splitLine, heq] at hcell
  rcases List.mem_cons.1 hcell with rfl | hmem
  · exact hc₀ne
  · exact hcs cell hmem

/-- Every cell of every row of a structured page is a non-empty string. -/
lemma structurePage_cells_ne_nil (t : List Char) :
    ∀ row ∈ structurePage t, ∀ cell ∈ row, cell ≠ [] := by
  intro row hrow cell hcell
  rw [structurePage] at hrow
  obtain ⟨line, hline, hmap⟩ := List.mem_map.1 hrow
  have hf : (!(pyStrip line).isEmpty) = true := (List.mem_filter.1 hline).2
  have hne : pyStrip line ≠ [] := by
    intro hh
    rw [hh] at hf
    simp at hf
  exact splitLine_cells_ne_nil line hne cell (hmap ▸ hcell)

/-- A fully successful run collects exactly the non-empty page frames in page
order and warns about exactly the empty pages. -/
lemma runPages_map_ok : ∀ (texts : List (List Char)) (i : Nat),
    runPages i (texts.map PageOutcome.ok) =
      (some ((texts.map structurePage).filter (fun f => !f.isEmpty)), warnsFrom i texts) := by
  intro texts
  induction texts with
  | nil => intro i; rfl
  | cons t rest ih =>
    intro i
    show (combineFrames (structurePage t) (runPages (i + 1) (rest.map PageOutcome.ok)).1,
      combineWarns i (structurePage t) (runPages (i + 1) (rest.map PageOutcome.ok)).2) = _
    rw [ih (i + 1)]
    by_cases hpd : (structurePage t).isEmpty
    · simp [combineFrames, combineWarns, warnsFrom, hpd, List.filter_cons]
    · simp [combineFrames, combineWarns, warnsFrom, hpd, List.filter_cons]

/-- Any failing page makes the whole extraction return None, whatever came
before or after it. -/
lemma runPages_fail : ∀ (pre : List PageOutcome) (i : Nat) (p : PageOutcome)
    (post : List PageOutcome), (p = PageOutcome.notFound ∨ p = PageOutcome.err) →
    (runPages i (pre ++ p :: post)).1 = none := by
  intro pre
  induction pre with
  | nil =>
    intro i p post hp
    rcases hp with rfl | rfl <;> rfl
  | cons q pre' ih =>
    intro i p post hp
    cases q with
    | ok t =>
      show (combineFrames (structurePage t) (runPages (i + 1) (pre' ++ p :: post)).1) = none
      rw [ih (i + 1) p post hp]
      rfl
    | notFound => rfl
    | err => rfl

/-- Soundness of collected frames: every collected frame has at least one row,
and every cell in it is non-empty. -/
lemma runPages_some_sound : ∀ (pages : List PageOutcome) (i : Nat) (frames : List Frame)
    (w : List Nat), runPages i pages = (some frames, w) →
    ∀ f ∈ frames, f ≠ [] ∧ ∀ row ∈ f, ∀ cell ∈ row, cell ≠ [] := by
  intro pages
  induction pages with
  | nil =>
    intro i frames w h f hf
    have : ([] : List Frame) = frames := by
      simpa [runPages] using congrArg Prod.fst h
    rw [← this] at hf
    simp at hf
  | cons p rest ih =>
    intro i frames w h f hf
    cases p with
    | ok t =>
      have h1 : combineFrames (structurePage t) (runPages (i + 1) rest).1 = some frames :=
        congrArg Prod.fst h
      cases hr : (runPages (i + 1) rest).1 with
      | none => rw [hr] at h1; cases h1
      | some blocks =>
        rw [hr] at h1
        have h2 : (if (structurePage t).isEmpty then blocks else structurePage t :: blocks)
            = frames := by
          simpa [combineFrames] using h1
        have hrec := ih (i + 1) blocks (runPages (i + 1) rest).2
          (by rw [← hr])
        by_cases hpd : (structurePage t).isEmpty
        · rw [if_pos hpd] at h2
          exact hrec f (by rw [← h2] at hf; exact hf)
        · rw [if_neg hpd] at h2
          rw [← h2] at hf
          rcases List.mem_cons.1 hf with rfl | hm
          · refine ⟨by simpa [List.isEmpty_iff] using hpd, structurePage_cells_ne_nil t⟩
          · exact hrec f hm
    | notFound => cases congrArg Prod.fst h
    | err => cases congrArg Prod.fst h

/-- An empty page at position j is warned about as page j+1. -/
lemma mem_warnsFrom : ∀ (texts : List (List Char)) (j i : Nat) (h : j < texts.length),
    structurePage (texts.get ⟨j, h⟩) = [] → (i + j + 1) ∈ warnsFrom i texts := by
  intro texts
  induction texts with
  | nil => intro j i h; simp at h
  | cons t rest ih =>
    intro j i h hemp
    cases j with
    | zero =>
      have : (structurePage t).isEmpty = true := by
        simpa [List.isEmpty_iff] using hemp
      simp [warnsFrom, this]
    | succ j' =>
      have hrec := ih j' (i + 1) (by simpa using h) (by simpa using hemp)
      have harith : i + 1 + j' + 1 = i + (j' + 1) + 1 := by omega
      rw [harith] at hrec
      by_cases hpd : (structurePage t).isEmpty
      · simp only [warnsFrom, if_pos hpd]
        exact List.mem_cons_of_mem _ hrec
      · simpa [warnsFrom, hpd] using hrec

/-- Dropping empty frames does not change the concatenated rows. -/
lemma concatFrames_filter : ∀ (l : List Frame),
    concatFrames (l.filter (fun f => !f.isEmpty)) = concatFrames l := by
  intro l
  induction l with
  | nil => rfl
  | cons f fs ih =>
    by_cases hf : f.isEmpty
    · have hfe : f = [] := by simpa [List.isEmpty_iff] using hf
      rw [List.filter_cons, if_neg (by simp [hf])]
      rw [ih, hfe]
      rfl
    · rw [List.filter_cons, if_pos (by simp [hf])]
      show f ++ concatFrames (fs.filter (fun f => !f.isEmpty)) = f ++ concatFrames fs
      rw [ih]

/-- appRun on a fully successful run, expressed through the collected frames. -/
lemma appRun_map_ok (name : List Char) (texts : List (List Char)) :
    appRun name (texts.map PageOutcome.ok) =
      (if !((texts.map structurePage).filter (fun f => !f.isEmpty)).isEmpty &&
          !(((texts.map structurePage).filter (fun f => !f.isEmpty)).all fun f => f.isEmpty) then
        match convert_dfs_to_excel_bytes ((texts.map structurePage).filter (fun f => !f.isEmpty)) with
        | some art => AppOutcome.download (exportFilename name) art
        | none => AppOutcome.processedNoFile
      else AppOutcome.noData) := by
  unfold appRun extract_text_with_ocr
  rw [runPages_map_ok]

/-- A download outcome always carries the deterministic export filename. -/
lemma appRun_download_fname (name : List Char) (pages : List PageOutcome)
    (fname : List Char) (art : ExcelArtifact)
    (h : appRun name pages = AppOutcome.download fname art) : fname = exportFilename name := by
  unfold appRun at h
  split at h
  · cases h
  · split at h
    · split at h
      · injection h with h1 _
        exact h1.symm
      · cases h
    · cases h

/-- Claim C1 (amended): each line that is non-empty after stripping is split
into cells exactly at runs of two or more whitespace characters, and a single
space never acts as a separator: joining well-formed cells with such runs and
splitting recovers exactly the cells (so n internal runs give n+1 cells).  In
particular the example line with two internal runs of three spaces gives
exactly three cells, and the line containing only single spaces gives exactly
one cell. -/
theorem splitLine_splits_only_at_multispace_runs :
    (∀ (cells seps : List (List Char)), seps.length + 1 = cells.length →
      (∀ x ∈ cells, okCell x = true) → (∀ s ∈ seps, okSep s = true) →
      splitLine (interleave cells seps) = cells) ∧
    splitLine "नाम   उम्र   शहर".toList = ["नाम".toList, "उम्र".toList, "शहर".toList] ∧
    splitLine "श्री राम शर्मा".toList = ["श्री राम शर्मा".toList] := by
  refine ⟨?_, by decide, by decide⟩
  intro cells seps hlen hc hs
  match cells, hlen with
  | c :: cs', hlen =>
    rw [splitLine,
      pyStrip_eq_self _ (isSpaceHead_interleave c cs' seps (hc c (by simp)))
        (Or.inr (lastNotSpace_interleave seps (c :: cs') hlen hc))]
    exact splitRuns_interleave seps (c :: cs') hlen hc hs

/-- Witness for claim C1: splitting a concrete joined line recovers its cells. -/
theorem splitLine_multispace_runs_witness :
    splitLine (interleave ["ab".toList, "cd".toList] ["  ".toList]) =
      ["ab".toList, "cd".toList] :=
  splitLine_splits_only_at_multispace_runs.1 ["ab".toList, "cd".toList] ["  ".toList]
    (by decide) (by decide) (by decide)

/-- Counterexample for claim C1 as stated: a line with three internal runs of
two-or-more spaces yields four cells, not three. -/
theorem three_run_line_gives_four_cells :
    (splitLine "a  b  c  d".toList).length = 4 ∧
    ¬(splitLine "a  b  c  d".toList).length = 3 := by
  exact ⟨by decide, by decide⟩

/-- Counterexample for claim C2 as stated: when recognition throws for the
second of three pages, the whole extraction returns None and the app reports
no data, even though pages one and three each have a row; no aggregated table
containing their rows exists. -/
theorem item_failure_discards_other_items :
    (extract_text_with_ocr
      [PageOutcome.ok "a  b".toList, PageOutcome.err, PageOutcome.ok "c  d".toList]).1 = none ∧
    structurePage "a  b".toList = [["a".toList, "b".toList]] ∧
    structurePage "c  d".toList = [["c".toList, "d".toList]] ∧
    appRun "x.pdf".toList
      [PageOutcome.ok "a  b".toList, PageOutcome.err, PageOutcome.ok "c  d".toList] =
      AppOutcome.noData := by
  exact ⟨by decide, by decide, by decide, by decide⟩

/-- Claim C2 (amended): if recognition throws for one page, the whole
extraction aborts with None and the run ends in the no-data branch; rows of
the other pages are not preserved, the batch does not continue. -/
theorem recognition_error_aborts_whole_extraction :
    ∀ (name : List Char) (pre post : List PageOutcome),
    (extract_text_with_ocr (pre ++ PageOutcome.err :: post)).1 = none ∧
    appRun name (pre ++ PageOutcome.err :: post) = AppOutcome.noData := by
  intro name pre post
  have h := runPages_fail pre 0 PageOutcome.err post (Or.inr rfl)
  refine ⟨h, ?_⟩
  unfold appRun
  rw [show (extract_text_with_ocr (pre ++ PageOutcome.err :: post)).1 = none from h]

/-- Claim C3: when the Tesseract executable is not found, the whole run aborts
with no aggregated table, even when earlier pages were already processed. -/
theorem tesseract_missing_aborts_run :
    ∀ (name : List Char) (pre post : List PageOutcome),
    (extract_text_with_ocr (pre ++ PageOutcome.notFound :: post)).1 = none ∧
    appRun name (pre ++ PageOutcome.notFound :: post) = AppOutcome.noData := by
  intro name pre post
  have h := runPages_fail pre 0 PageOutcome.notFound post (Or.inl rfl)
  refine ⟨h, ?_⟩
  unfold appRun
  rw [show (extract_text_with_ocr (pre ++ PageOutcome.notFound :: post)).1 = none from h]

/-- Claim C4: the downloaded worksheet's rows are exactly the concatenation of
the per-page structured rows in page order, with no sorting, filtering,
deduplication or reordering. -/
theorem download_rows_are_concatenation_in_order :
    ∀ (name : List Char) (texts : List (List Char)) (fname : List Char) (art : ExcelArtifact),
    appRun name (texts.map PageOutcome.ok) = AppOutcome.download fname art →
    art.sheets = [⟨"Merged_OCR_Result".toList,
      List.range (maxRowLen (concatFrames (texts.map structurePage))),
      concatFrames (texts.map structurePage)⟩] := by
  intro name texts fname art h
  rw [appRun_map_ok] at h
  by_cases hc : (!((texts.map structurePage).filter (fun f => !f.isEmpty)).isEmpty &&
      !(((texts.map structurePage).filter (fun f => !f.isEmpty)).all fun f => f.isEmpty)) = true
  · rw [if_pos hc] at h
    have hne : ((texts.map structurePage).filter (fun f => !f.isEmpty)).isEmpty = false := by
      rcases Bool.and_eq_true_iff.1 hc with ⟨h1, _⟩
      simpa using h1
    have hconv : convert_dfs_to_excel_bytes ((texts.map structurePage).filter (fun f => !f.isEmpty)) =
        some ⟨[⟨"Merged_OCR_Result".toList,
          List.range (maxRowLen (concatFrames ((texts.map structurePage).filter (fun f => !f.isEmpty)))),
          concatFrames ((texts.map structurePage).filter (fun f => !f.isEmpty))⟩]⟩ := by
      unfold convert_dfs_to_excel_bytes
      rw [hne]
      rfl
    rw [hconv] at h
    injection h with _ h2
    rw [← h2, concatFrames_filter]
  · rw [if_neg hc] at h
    cases h

/-- Witness for claim C4: a concrete one-page run downloads exactly that
page's rows. -/
theorem download_rows_concatenation_witness :
    (appRun "x.pdf".toList (["a  b".toList].map PageOutcome.ok) =
      AppOutcome.download "x_Tesseract_OCR.xlsx".toList
        ⟨[⟨"Merged_OCR_Result".toList, [0, 1], [["a".toList, "b".toList]]⟩]⟩) ∧
    (⟨[⟨"Merged_OCR_Result".toList, [0, 1], [["a".toList, "b".toList]]⟩]⟩ : ExcelArtifact).sheets =
      [⟨"Merged_OCR_Result".toList,
        List.range (maxRowLen (concatFrames (["a  b".toList].map structurePage))),
        concatFrames (["a  b".toList].map structurePage)⟩] :=
  ⟨by decide,
   download_rows_are_concatenation_in_order "x.pdf".toList ["a  b".toList]
     "x_Tesseract_OCR.xlsx".toList
     ⟨[⟨"Merged_OCR_Result".toList, [0, 1], [["a".toList, "b".toList]]⟩]⟩ (by decide)⟩

/-- Claim C5: when every page produced zero rows, the run ends in the
no-structured-text warning branch with no download, and exporting an empty
frame list returns no bytes. -/
theorem all_pages_empty_reports_no_data :
    ∀ (name : List Char) (texts : List (List Char)),
    (∀ t ∈ texts, structurePage t = []) →
    appRun name (texts.map PageOutcome.ok) = AppOutcome.noData ∧
    convert_dfs_to_excel_bytes [] = none := by
  intro name texts h
  refine ⟨?_, rfl⟩
  have hdfs : (texts.map structurePage).filter (fun f => !f.isEmpty) = [] := by
    rw [List.filter_eq_nil_iff]
    intro f hf
    obtain ⟨t, ht, rfl⟩ := List.mem_map.1 hf
    simp [h t ht]
  rw [appRun_map_ok, hdfs]
  rfl

/-- Witness for claim C5: a run whose single page is all whitespace reports
no data. -/
theorem all_pages_empty_witness :
    (∀ t ∈ [" ".toList], structurePage t = []) ∧
    (appRun "x.pdf".toList ([" ".toList].map PageOutcome.ok) = AppOutcome.noData ∧
     convert_dfs_to_excel_bytes [] = none) :=
  ⟨by decide, all_pages_empty_reports_no_data "x.pdf".toList [" ".toList] (by decide)⟩

/-- Claim C6: a page with no structured content contributes zero rows, is
warned about by its one-based page number, and the extraction of the remaining
pages still succeeds. -/
theorem blank_page_warns_and_continues :
    ∀ (texts : List (List Char)) (i : Nat) (h : i < texts.length),
    structurePage (texts.get ⟨i, h⟩) = [] →
    (i + 1) ∈ (extract_text_with_ocr (texts.map PageOutcome.ok)).2 ∧
    (extract_text_with_ocr (texts.map PageOutcome.ok)).1 =
      some ((texts.map structurePage).filter (fun f => !f.isEmpty)) := by
  intro texts i h hemp
  have hw := mem_warnsFrom texts i 0 h hemp
  constructor
  · unfold extract_text_with_ocr
    rw [runPages_map_ok]
    simpa using hw
  · unfold extract_text_with_ocr
    rw [runPages_map_ok]

/-- Witness for claim C6: a run on a single all-whitespace page warns about
page 1 and still succeeds. -/
theorem blank_page_witness :
    structurePage ([" ".toList].get ⟨0, by decide⟩) = [] ∧
    ((0 + 1) ∈ (extract_text_with_ocr ([" ".toList].map PageOutcome.ok)).2 ∧
     (extract_text_with_ocr ([" ".toList].map PageOutcome.ok)).1 =
       some (([" ".toList].map structurePage).filter (fun f => !f.isEmpty))) :=
  ⟨by decide, blank_page_warns_and_continues [" ".toList] 0 (by decide) (by decide)⟩

/-- Claim C7: on every modelled batch-run exit path (success, per-item failure
and batch abort are all instances of the page outcomes), the finally block
deletes the temporary PDF file. -/
theorem temp_pdf_deleted_after_run :
    ∀ (name : List Char) (pages : List PageOutcome),
    (appWithTemp name true pages).1.tempOnDisk = false := by
  intro name pages
  rfl

/-- Claim C8: the suggested download filename is the uploaded file's base name
followed by the engine tag and extension; it does not depend on the page
contents, so it is identical across runs of the same uploaded filename. -/
theorem download_filename_from_basename_and_engine :
    ∀ (name : List Char) (pages : List PageOutcome) (fname : List Char) (art : ExcelArtifact),
    appRun name pages = AppOutcome.download fname art →
    fname = (pySplitext name).1 ++ "_Tesseract_OCR.xlsx".toList := by
  intro name pages fname art h
  rw [appRun_download_fname name pages fname art h]
  rfl

/-- Witness for claim C8: a concrete upload doc.pdf downloads under
doc_Tesseract_OCR.xlsx. -/
theorem download_filename_witness :
    "doc_Tesseract_OCR.xlsx".toList =
      (pySplitext "doc.pdf".toList).1 ++ "_Tesseract_OCR.xlsx".toList :=
  download_filename_from_basename_and_engine "doc.pdf".toList [PageOutcome.ok "a  b".toList]
    "doc_Tesseract_OCR.xlsx".toList
    ⟨[⟨"Merged_OCR_Result".toList, [0, 1], [["a".toList, "b".toList]]⟩]⟩ (by decide)

/-- Counterexample for claim C9 as stated: a header row IS written.  For a
concrete export, the single worksheet carries the integer column labels 0, 1
as a (non-empty) header row above the data, because to_excel at call.py line
48 leaves header at its default True and the concatenated frame's columns are
the default RangeIndex. -/
theorem excel_export_writes_label_header_row :
    (convert_dfs_to_excel_bytes [[["a".toList, "b".toList]]]).map
      (fun art => art.sheets.map Sheet.headerLabels) = some [[0, 1]] ∧
    ([0, 1] : List Nat) ≠ [] := by
  exact ⟨by decide, by decide⟩

/-- Claim C9 (amended): the export artifact holds exactly one worksheet,
always named Merged_OCR_Result; the data carry no declared schema and no data
row is consumed as a header or reordered, but to_excel's default header=True
writes the integer column labels 0..w-1 of the concatenated frame (w its
widest row) as a header row above the unchanged data rows. -/
theorem excel_single_fixed_sheet_label_header :
    ∀ (dfs : List Frame) (art : ExcelArtifact),
    convert_dfs_to_excel_bytes dfs = some art →
    art.sheets.length = 1 ∧
    ∀ s ∈ art.sheets, s.sheetName = "Merged_OCR_Result".toList ∧
      s.headerLabels = List.range (maxRowLen (concatFrames dfs)) ∧
      s.rows = concatFrames dfs := by
  intro dfs art h
  unfold convert_dfs_to_excel_bytes at h
  split at h
  · cases h
  · injection h with h1
    rw [← h1]
    refine ⟨by simp, ?_⟩
    intro s hs
    rcases List.mem_cons.1 hs with rfl | hm
    · exact ⟨rfl, rfl, rfl⟩
    · simp at hm

/-- Witness for claim C9: a concrete export has one sheet with the fixed name,
the integer label header row, and the unchanged data rows. -/
theorem excel_single_sheet_witness :
    (convert_dfs_to_excel_bytes [[["a".toList]]] =
      some ⟨[⟨"Merged_OCR_Result".toList, [0], [["a".toList]]⟩]⟩) ∧
    ((⟨[⟨"Merged_OCR_Result".toList, [0], [["a".toList]]⟩]⟩ : ExcelArtifact).sheets.length = 1 ∧
     ∀ s ∈ (⟨[⟨"Merged_OCR_Result".toList, [0], [["a".toList]]⟩]⟩ : ExcelArtifact).sheets,
       s.sheetName = "Merged_OCR_Result".toList ∧
       s.headerLabels = List.range (maxRowLen (concatFrames [[["a".toList]]])) ∧
       s.rows = concatFrames [[["a".toList]]]) :=
  ⟨by decide,
   excel_single_fixed_sheet_label_header [[["a".toList]]]
     ⟨[⟨"Merged_OCR_Result".toList, [0], [["a".toList]]⟩]⟩ (by decide)⟩

/-- Claim C10: every frame collected by the extraction has at least one row,
and every cell of every row is a non-empty string. -/
theorem appended_frames_and_cells_nonempty :
    ∀ (pages : List PageOutcome) (frames : List Frame) (w : List Nat),
    extract_text_with_ocr pages = (some frames, w) →
    ∀ f ∈ frames, f ≠ [] ∧ ∀ row ∈ f, ∀ cell ∈ row, cell ≠ [] :=
  fun pages frames w h => runPages_some_sound pages 0 frames w h

/-- Witness for claim C10: a concrete one-page extraction, with its frame
non-empty and all its cells non-empty. -/
theorem appended_frames_witness :
    (extract_text_with_ocr [PageOutcome.ok "a  b".toList] =
      (some [[["a".toList, "b".toList]]], [])) ∧
    (∀ f ∈ [[["a".toList, "b".toList]]], f ≠ [] ∧ ∀ row ∈ f, ∀ cell ∈ row, cell ≠ []) :=
  ⟨by decide, appended_frames_and_cells_nonempty [PageOutcome.ok "a  b".toList]
    [[["a".toList, "b".toList]]] [] (by decide)⟩

end Calling
